import Mathlib

/-!
Verification of the contact/notes assistant core against its source.

The Python modules are shallowly embedded:
* `models/address_book.py` (the implementation imported by `core/handlers.py`
  and `main.py`): `AddressBook.delete`, `AddressBook.search_contacts_by_address`,
  `AddressBook.get_upcoming_birthdays`.
* `models/AddressBook.py` (legacy CamelCase module, imported by the top-level
  `handlers.py`): `AddressBookLegacy.get_upcoming_birthdays`.
* `models/phone.py` / `models/Phone.py`: `Phone.init` / `PhoneLegacy.init`.
* `models/Record.py`: `RecordLegacy.add_phone`.
* `models/notebook.py`: `NoteBook.get_all_notes`, `NoteBook.search_by_tags`.
* `models/Note.py`: `Note` tag operations and timestamps.

Python `datetime.date` values are embedded as year/month/day triples over `Nat`
with the proleptic-Gregorian ordinal (`date.toordinal`) used for comparison,
subtraction and weekday, exactly as CPython computes them.  Raised `ValueError`s
are embedded as `Except.error`; `None` as `Option.none`.  Timestamps from
`datetime.now()` are embedded as abstract `Nat` clock readings.
-/

deriving instance DecidableEq for Except

/-- Leap-year test, as CPython `calendar.isleap` / `datetime` use it. -/
def isLeapYear (y : Nat) : Bool :=
  (y % 4 == 0 && y % 100 != 0) || y % 400 == 0

/-- Number of days in month `m` of year `y` (0 for an out-of-range month). -/
def daysInMonth (y m : Nat) : Nat :=
  match m with
  | 1 => 31
  | 2 => if isLeapYear y then 29 else 28
  | 3 => 31
  | 4 => 30
  | 5 => 31
  | 6 => 30
  | 7 => 31
  | 8 => 31
  | 9 => 30
  | 10 => 31
  | 11 => 30
  | 12 => 31
  | _ => 0

/-- Validity of a year/month/day triple as a Python `datetime.date`
(years restricted to `MINYEAR = 1 .. MAXYEAR = 9999`). -/
def isValidDate (y m d : Nat) : Bool :=
  1 ≤ y && y ≤ 9999 && 1 ≤ m && m ≤ 12 && 1 ≤ d && d ≤ daysInMonth y m

/-- A calendar date as stored in a Python `datetime.date`. -/
structure Date where
  year : Nat
  month : Nat
  day : Nat
deriving DecidableEq, Repr

/-- Days in year `y` before the first of month `m`
(CPython `_days_before_month`). -/
def daysBeforeMonth (y m : Nat) : Nat :=
  (match m with
   | 1 => 0
   | 2 => 31
   | 3 => 59
   | 4 => 90
   | 5 => 120
   | 6 => 151
   | 7 => 181
   | 8 => 212
   | 9 => 243
   | 10 => 273
   | 11 => 304
   | _ => 334) +
  (if 3 ≤ m && isLeapYear y then 1 else 0)

/-- Proleptic-Gregorian ordinal of a date, with `0001-01-01` mapped to `1`;
this is exactly CPython `date.toordinal()`. -/
def toOrdinal (d : Date) : Nat :=
  (365 * (d.year - 1) + (d.year - 1) / 4 + (d.year - 1) / 400 - (d.year - 1) / 100) +
    daysBeforeMonth d.year d.month + d.day

/-- Weekday with Monday = 0 .. Sunday = 6, exactly Python `date.weekday()`. -/
def Date.weekday (d : Date) : Nat :=
  (toOrdinal d + 6) % 7

/-- Date comparison; Python compares `date` values chronologically, which on
valid dates coincides with comparison of their ordinals. -/
def dateLt (a b : Date) : Bool :=
  toOrdinal a < toOrdinal b

/-- Difference of two dates in days, Python `(a - b).days`. -/
def dateSub (a b : Date) : Int :=
  (toOrdinal a : Int) - (toOrdinal b : Int)

/-- Successor day in the Gregorian calendar. -/
def nextDay (d : Date) : Date :=
  if d.day < daysInMonth d.year d.month then ⟨d.year, d.month, d.day + 1⟩
  else if d.month < 12 then ⟨d.year, d.month + 1, 1⟩
  else ⟨d.year + 1, 1, 1⟩

/-- Adding `n` days to a date, Python `d + timedelta(days=n)` for `n ≥ 0`. -/
def addDays (d : Date) : Nat → Date
  | 0 => d
  | n + 1 => nextDay (addDays d n)

/-- Python `d.replace(year=y)`: keeps month and day, raises `ValueError`
(embedded as `none`) when the resulting date is invalid. -/
def replaceYear (d : Date) (y : Nat) : Option Date :=
  if isValidDate y d.month d.day then some ⟨y, d.month, d.day⟩ else none

/-- Zero-padded two-digit rendering used by `strftime` `%d` and `%m`. -/
def pad2 (n : Nat) : String :=
  if n < 10 then "0" ++ toString n else toString n

/-- Zero-padded four-digit rendering used by `strftime` `%Y`. -/
def pad4 (n : Nat) : String :=
  if n < 10 then "000" ++ toString n
  else if n < 100 then "00" ++ toString n
  else if n < 1000 then "0" ++ toString n
  else toString n

/-- Rendering of a date with `strftime` under `Birthday.DATE_FORMAT`,
that is "%d.%m.%Y" (DD.MM.YYYY). -/
def formatDate (d : Date) : String :=
  pad2 d.day ++ "." ++ pad2 d.month ++ "." ++ pad4 d.year

/-- A contact record of `models/record.py` as the address-book module uses it:
`name.value`, the cleaned `phone.value` strings, optional email/address values
and the optional `birthday.value` date.  Only these payloads are observable in
the claims below. -/
structure Record where
  name : String
  phones : List String
  email : Option String
  address : Option String
  birthday : Option Date
deriving DecidableEq, Repr

/-- The `AddressBook.data` dict of `models/address_book.py`: keys in insertion
order mapped to records (`add_record` keys by `record.name.value`). -/
abbrev AddressBook := List (String × Record)

/-- Values view of the dict, Python `self.data.values()` in insertion order. -/
def AddressBook.values (book : AddressBook) : List Record :=
  book.map Prod.snd

/-- Embedding of `AddressBook.delete` (`models/address_book.py`): if the name
is a key, remove that entry and return the record, otherwise raise `KeyError`.
The apostrophes of the Python message are written `\x27`. -/
def AddressBook.delete (book : AddressBook) (name : String) :
    Except String (Record × AddressBook) :=
  match book.lookup name with
  | some record => .ok (record, book.eraseP (fun kv => kv.1 == name))
  | none => .error ("Contact \x27" ++ name ++ "\x27 not found")

/-- Embedding of `AddressBook.search_contacts_by_address`
(`models/address_book.py`): the body is `pass` (the real search is commented
out), so the call returns Python `None`, embedded as `none`. -/
def AddressBook.search_contacts_by_address (_book : AddressBook)
    (_address : String) : Option (List Record) :=
  none

/-- One iteration of the `get_upcoming_birthdays` loop of
`models/address_book.py` for a single record: `.ok none` when nothing is
appended, `.ok (some pair)` when `(name, birthday strftime)` is appended, and
`.error` when `date.replace` raises `ValueError`.  Mirrors the source exactly:
in the birthday-already-passed branch the next-year candidate is computed and
then dropped — the days-until test and the append only happen in the `else`
branch. -/
def upcomingEntry (today : Date) (daysAhead : Int) (record : Record) :
    Except String (Option (String × String)) :=
  match record.birthday with
  | none => .ok none
  | some birthDate =>
    match replaceYear birthDate today.year with
    | none => .error "ValueError: day is out of range for month"
    | some thisYearBirthday =>
      if dateLt thisYearBirthday today then
        -- birthday already occurred this year: compute next year occurrence
        -- and fall through without any days-until test or append
        match replaceYear thisYearBirthday (today.year + 1) with
        | none => .error "ValueError: day is out of range for month"
        | some _ => .ok none
      else
        let rolled :=
          if thisYearBirthday.weekday == 6 then addDays thisYearBirthday 1
          else if thisYearBirthday.weekday == 5 then addDays thisYearBirthday 2
          else thisYearBirthday
        let daysUntilBirthday := dateSub rolled today
        if 0 ≤ daysUntilBirthday ∧ daysUntilBirthday ≤ daysAhead then
          .ok (some (record.name, formatDate birthDate))
        else
          .ok none

/-- Loop of `get_upcoming_birthdays` over the record values, preserving
iteration order and letting a raised `ValueError` abort the whole call. -/
def collectUpcoming (today : Date) (daysAhead : Int) :
    List Record → Except String (List (String × String))
  | [] => .ok []
  | record :: rest =>
    match upcomingEntry today daysAhead record with
    | .error e => .error e
    | .ok entry =>
      match collectUpcoming today daysAhead rest with
      | .error e => .error e
      | .ok tail =>
        match entry with
        | none => .ok tail
        | some pair => .ok (pair :: tail)

/-- Embedding of `AddressBook.get_upcoming_birthdays`
(`models/address_book.py`) with the reference date `now_date` passed
explicitly, as the claims do. -/
def AddressBook.get_upcoming_birthdays (book : AddressBook) (daysAhead : Int)
    (nowDate : Date) : Except String (List (String × String)) :=
  collectUpcoming nowDate daysAhead book.values

/-- A contact record of the legacy `models/Record.py`: name, phones and an
optional birthday (no email or address fields exist there). -/
structure RecordLegacy where
  name : String
  phones : List String
  birthday : Option Date
deriving DecidableEq, Repr

/-- One iteration of the loop of `get_upcoming_birthdays` in the legacy
`models/AddressBook.py`: here the year-wrap happens before a shared
days-until test against a fixed 7-day window, and the appended string is the
`strftime` of the weekend-rolled congratulation date, not of the stored
birthday. -/
def upcomingEntryLegacy (today : Date) (record : RecordLegacy) :
    Except String (Option (String × String)) :=
  match record.birthday with
  | none => .ok none
  | some birthDate =>
    match replaceYear birthDate today.year with
    | none => .error "ValueError: day is out of range for month"
    | some firstCandidate =>
      let wrapped : Except String Date :=
        if dateLt firstCandidate today then
          match replaceYear firstCandidate (today.year + 1) with
          | none => .error "ValueError: day is out of range for month"
          | some nextYearBirthday => .ok nextYearBirthday
        else .ok firstCandidate
      match wrapped with
      | .error e => .error e
      | .ok birthdayThisYear =>
        let daysUntilBirthday := dateSub birthdayThisYear today
        if 0 ≤ daysUntilBirthday ∧ daysUntilBirthday ≤ 7 then
          let congratulationDate :=
            if 5 ≤ birthdayThisYear.weekday then
              addDays birthdayThisYear (7 - birthdayThisYear.weekday)
            else birthdayThisYear
          .ok (some (record.name, formatDate congratulationDate))
        else .ok none

/-- Loop of the legacy `get_upcoming_birthdays` over the record values. -/
def collectUpcomingLegacy (today : Date) :
    List RecordLegacy → Except String (List (String × String))
  | [] => .ok []
  | record :: rest =>
    match upcomingEntryLegacy today record with
    | .error e => .error e
    | .ok entry =>
      match collectUpcomingLegacy today rest with
      | .error e => .error e
      | .ok tail =>
        match entry with
        | none => .ok tail
        | some pair => .ok (pair :: tail)

/-- Embedding of the legacy `AddressBook.get_upcoming_birthdays`
(`models/AddressBook.py`); `today` stands for the `datetime.today().date()`
the function reads at call time. -/
def AddressBookLegacy.get_upcoming_birthdays (records : List RecordLegacy)
    (today : Date) : Except String (List (String × String)) :=
  collectUpcomingLegacy today records

/-- Python `re.sub(r"\D", "", value)`: drop every non-digit character.
Digits are modelled as the ASCII decimal digits. -/
def cleanPhone (value : String) : String :=
  ⟨value.data.filter Char.isDigit⟩

/-- Python `str.isdigit()` restricted to ASCII digits: true on nonempty
all-digit strings. -/
def strIsDigit (s : String) : Bool :=
  s ≠ "" && s.data.all Char.isDigit

/-- Embedding of `Phone.__init__` of `models/phone.py`: clean the value,
reject an empty cleaned string, then require exactly `PHONE_LEN = 10` digits;
the stored `value` is the cleaned string. -/
def Phone.init (value : String) : Except String String :=
  let phone := cleanPhone value
  if phone = "" then .error "Phone number cannot be empty"
  else if !(strIsDigit phone && phone.length == 10) then
    .error "Phone number must be 10 digits and contain only digits"
  else .ok phone

/-- Embedding of the legacy `Phone.__init__` of `models/Phone.py`: no cleaning
at all, the raw value itself must be a 10-character all-digit string. -/
def PhoneLegacy.init (value : String) : Except String String :=
  if !(strIsDigit value && value.length == 10) then
    .error "Phone number must be 10 digits and contain only numbers"
  else .ok value

/-- Embedding of `Record.add_phone` of the legacy `models/Record.py`: validate
through `Phone` and append — the phone list is not consulted, duplicates are
appended freely. -/
def RecordLegacy.add_phone (record : RecordLegacy) (phone : String) :
    Except String RecordLegacy :=
  match PhoneLegacy.init phone with
  | .error e => .error e
  | .ok p => .ok { record with phones := record.phones ++ [p] }

/-- A note of `models/Note.py`: text, tag list, and creation/update
timestamps.  Timestamps are abstract clock readings (`datetime.now()` values)
ordered as naturals; the `_uuid` plays no role in the claims below. -/
structure Note where
  text : String
  tags : List String
  created_at : Nat
  updated_at : Nat
deriving DecidableEq, Repr

/-- Python `str.strip()` on the whitespace characters: drop leading and
trailing whitespace. -/
def strStrip (s : String) : String :=
  ⟨((s.data.dropWhile Char.isWhitespace).reverse.dropWhile Char.isWhitespace).reverse⟩

/-- Embedding of `Note.__init__` at clock reading `now`: empty or blank text
(`not text or not text.strip()`) raises `ValueError`, otherwise both
timestamps are set to the same `now` and the tag list defaults to `[]`. -/
def Note.init (text : String) (tags : Option (List String)) (now : Nat) :
    Except String Note :=
  if strStrip text = "" then .error "Note text cannot be empty"
  else .ok { text, tags := tags.getD [], created_at := now, updated_at := now }

/-- Embedding of `Note.add_tag` at clock reading `now`: append and bump
`updated_at` only when the tag is not yet present. -/
def Note.add_tag (note : Note) (tag : String) (now : Nat) : Note :=
  if tag ∈ note.tags then note
  else { note with tags := note.tags ++ [tag], updated_at := now }

/-- Embedding of `Note.remove_tag` at clock reading `now`: remove the first
occurrence and bump `updated_at` only when the tag is present. -/
def Note.remove_tag (note : Note) (tag : String) (now : Nat) : Note :=
  if tag ∈ note.tags then
    { note with tags := note.tags.erase tag, updated_at := now }
  else note

/-- Embedding of `Note.edit_tags` at clock reading `now`: replace the whole
tag list and always bump `updated_at` (a `None` argument becomes `[]`). -/
def Note.edit_tags (note : Note) (newTags : Option (List String)) (now : Nat) :
    Note :=
  { note with tags := newTags.getD [], updated_at := now }

/-- A tag-editing call together with the `datetime.now()` reading it observes. -/
inductive TagOp where
  | addTag (tag : String) (now : Nat)
  | removeTag (tag : String) (now : Nat)
  | editTags (newTags : Option (List String)) (now : Nat)
deriving DecidableEq, Repr

/-- Clock reading observed by a tag-editing call. -/
def TagOp.time : TagOp → Nat
  | .addTag _ now => now
  | .removeTag _ now => now
  | .editTags _ now => now

/-- Application of one tag-editing call to a note. -/
def applyTagOp (note : Note) : TagOp → Note
  | .addTag tag now => note.add_tag tag now
  | .removeTag tag now => note.remove_tag tag now
  | .editTags newTags now => note.edit_tags newTags now

/-- Application of a sequence of tag-editing calls, in order. -/
def applyTagOps (note : Note) (ops : List TagOp) : Note :=
  ops.foldl applyTagOp note

/-- Python string `<=`: lexicographic comparison of the code-point sequences
(`ord` of each character). -/
def charsLe : List Char → List Char → Bool
  | [], _ => true
  | _ :: _, [] => false
  | a :: as, b :: bs =>
    if a.toNat < b.toNat then true
    else if b.toNat < a.toNat then false
    else charsLe as bs

/-- Python `a <= b` on strings. -/
def strLe (a b : String) : Bool :=
  charsLe a.data b.data

/-- Python `str.lower()`; modelled on the ASCII letters, which is what
`Char.toLower` maps. -/
def strLower (s : String) : String :=
  ⟨s.data.map Char.toLower⟩

/-- The `NoteBook.notes` dict values in insertion order
(`models/notebook.py` iterates `self.notes.values()` everywhere). -/
abbrev NoteBook := List Note

/-- Sort key of the `"tags"` branch of `get_all_notes`: the lowercased first
tag, with the sentinel `"￿"` for a tagless note. -/
def tagsSortKey (note : Note) : String :=
  match note.tags with
  | [] => "￿"
  | tag :: _ => strLower tag

/-- Python `sorted(notes_list, key=key, reverse=reverse)`: a stable sort,
ascending in the key, with `reverse=True` flipping the key comparison while
keeping equal-key elements in input order.  `List.insertionSort` with the
corresponding relation has exactly this input/output behaviour. -/
def sortedByKey {α : Type} (key : Note → α) (le : α → α → Bool)
    (reverse : Bool) (l : List Note) : List Note :=
  if reverse then
    List.insertionSort (fun a b => le (key b) (key a) = true) l
  else
    List.insertionSort (fun a b => le (key a) (key b) = true) l

/-- Embedding of `NoteBook.get_all_notes` (`models/notebook.py`): dispatch on
`sort_by`, with `"created"`/`"updated"` sorting by timestamp, `"text"` by the
lowercased body, `"tags"` by `tagsSortKey`, and anything else falling back to
`"created"`. -/
def NoteBook.get_all_notes (notebook : NoteBook) (sortBy : String)
    (reverse : Bool) : List Note :=
  if sortBy = "created" then
    sortedByKey (fun n => n.created_at) (fun a b => a ≤ b) reverse notebook
  else if sortBy = "updated" then
    sortedByKey (fun n => n.updated_at) (fun a b => a ≤ b) reverse notebook
  else if sortBy = "text" then
    sortedByKey (fun n => strLower n.text) strLe reverse notebook
  else if sortBy = "tags" then
    sortedByKey tagsSortKey strLe reverse notebook
  else
    sortedByKey (fun n => n.created_at) (fun a b => a ≤ b) reverse notebook

/-- Embedding of `NoteBook.search_by_tags` (`models/notebook.py`): empty query
returns `[]`; otherwise keep exactly the notes whose lowercased tag list
contains every lowercased query tag. -/
def NoteBook.search_by_tags (notebook : NoteBook) (tags : List String) :
    List Note :=
  if tags = [] then []
  else
    notebook.filter (fun note =>
      (tags.map strLower).all (fun tag => (note.tags.map strLower).contains tag))

/-- Auxiliary for C3: any pair produced by one loop iteration of
`get_upcoming_birthdays` is the record name paired with the `strftime` of the
stored, unmodified birthday. -/
theorem upcomingEntry_pair_shape {today : Date} {daysAhead : Int}
    {record : Record} {pair : String × String}
    (h : upcomingEntry today daysAhead record = .ok (some pair)) :
    ∃ birthDate, record.birthday = some birthDate ∧
      pair = (record.name, formatDate birthDate) := by
  unfold upcomingEntry at h
  cases hb : record.birthday with
  | none => rw [hb] at h; exact Option.noConfusion (Except.ok.inj h)
  | some birthDate =>
    rw [hb] at h
    dsimp only [] at h
    cases hr : replaceYear birthDate today.year with
    | none => rw [hr] at h; exact Except.noConfusion h
    | some thisYearBirthday =>
      rw [hr] at h
      dsimp only [] at h
      by_cases hlt : dateLt thisYearBirthday today = true
      · rw [if_pos hlt] at h
        cases hr2 : replaceYear thisYearBirthday (today.year + 1) with
        | none => rw [hr2] at h; exact Except.noConfusion h
        | some _ => rw [hr2] at h; exact Option.noConfusion (Except.ok.inj h)
      · rw [if_neg hlt] at h
        repeat' split at h
        all_goals
          first
            | exact ⟨birthDate, rfl, (Option.some.inj (Except.ok.inj h)).symm⟩
            | exact Option.noConfusion (Except.ok.inj h)

/-- Auxiliary for C3: pairs collected over a record list all have the
name/original-birthday shape. -/
theorem collectUpcoming_pairs {today : Date} {daysAhead : Int} :
    ∀ {records : List Record} {res : List (String × String)},
      collectUpcoming today daysAhead records = .ok res →
      ∀ pair ∈ res, ∃ record ∈ records, ∃ birthDate,
        record.birthday = some birthDate ∧
        pair = (record.name, formatDate birthDate) := by
  intro records
  induction records with
  | nil =>
    intro res h pair hp
    unfold collectUpcoming at h
    injection h with h
    rw [← h] at hp
    exact absurd hp (by simp)
  | cons record rest ih =>
    intro res h pair hp
    unfold collectUpcoming at h
    cases he : upcomingEntry today daysAhead record with
    | error e => rw [he] at h; exact absurd h (by simp)
    | ok entry =>
      rw [he] at h
      cases ht : collectUpcoming today daysAhead rest with
      | error e => rw [ht] at h; exact absurd h (by simp)
      | ok tail =>
        rw [ht] at h
        cases entry with
        | none =>
          injection h with h
          rw [← h] at hp
          obtain ⟨r, hr, hshape⟩ := ih ht pair hp
          exact ⟨r, List.mem_cons_of_mem _ hr, hshape⟩
        | some p =>
          injection h with h
          rw [← h] at hp
          cases hp with
          | head =>
            obtain ⟨bd, hbd, hpair⟩ := upcomingEntry_pair_shape he
            exact ⟨record, List.mem_cons_self _ _, bd, hbd, hpair⟩
          | tail _ hmem =>
            obtain ⟨r, hr, hshape⟩ := ih ht pair hmem
            exact ⟨r, List.mem_cons_of_mem _ hr, hshape⟩

/-- C1: in `models/address_book.py`, a record whose birthday moved to the
reference year falls strictly before `today` is NEVER included, even when the
next-year candidate satisfies `0 <= (candidate - today).days <= days_ahead`:
with `today = 2024-06-05`, birthday `04.06.1990` and `days_ahead = 364` the
candidate `2025-06-04` is `364` days away and inside the window, yet the
function returns the empty list, because the days-until test and the append
live only in the not-yet-passed branch.  This contradicts the function's own
docstring, which promises inclusion whenever the adjusted birthday is within
the window. -/
theorem upcoming_birthdays_passed_branch_never_included :
    AddressBook.get_upcoming_birthdays
      [("Bob", ⟨"Bob", [], none, none, some ⟨1990, 6, 4⟩⟩)] 364 ⟨2024, 6, 5⟩ =
      .ok [] ∧
    replaceYear ⟨1990, 6, 4⟩ 2024 = some ⟨2024, 6, 4⟩ ∧
    dateLt ⟨2024, 6, 4⟩ ⟨2024, 6, 5⟩ = true ∧
    replaceYear ⟨2024, 6, 4⟩ (2024 + 1) = some ⟨2025, 6, 4⟩ ∧
    dateSub ⟨2025, 6, 4⟩ ⟨2024, 6, 5⟩ = 364 ∧
    (0 : Int) ≤ 364 ∧ (364 : Int) ≤ 364 := by
  refine ⟨by decide, by decide, by decide, by decide, by decide, by decide, by decide⟩

/-- C2: with reference date Wednesday 2024-06-05 and one record with birthday
`08.06.1990` (a Saturday of the current year, not yet passed),
`get_upcoming_birthdays` rolls the congratulation date by two days to Monday
2024-06-10, computes `days_until = 5` against the rolled date, includes the
record for every `days_ahead >= 5`, and excludes it for `days_ahead = 3`. -/
theorem upcoming_birthdays_weekend_roll_window :
    (∀ daysAhead : Int, 5 ≤ daysAhead →
      AddressBook.get_upcoming_birthdays
        [("Alice", ⟨"Alice", [], none, none, some ⟨1990, 6, 8⟩⟩)] daysAhead
        ⟨2024, 6, 5⟩ = .ok [("Alice", "08.06.1990")]) ∧
    AddressBook.get_upcoming_birthdays
      [("Alice", ⟨"Alice", [], none, none, some ⟨1990, 6, 8⟩⟩)] 3
      ⟨2024, 6, 5⟩ = .ok [] ∧
    Date.weekday ⟨2024, 6, 5⟩ = 2 ∧
    Date.weekday ⟨2024, 6, 8⟩ = 5 ∧
    addDays ⟨2024, 6, 8⟩ 2 = ⟨2024, 6, 10⟩ ∧
    Date.weekday ⟨2024, 6, 10⟩ = 0 ∧
    dateSub ⟨2024, 6, 10⟩ ⟨2024, 6, 5⟩ = 5 := by
  refine ⟨?_, by decide, by decide, by decide, by decide, by decide, by decide⟩
  intro daysAhead hda
  have hentry :
      upcomingEntry ⟨2024, 6, 5⟩ daysAhead
        ⟨"Alice", [], none, none, some ⟨1990, 6, 8⟩⟩ =
        .ok (some ("Alice", "08.06.1990")) := by
    unfold upcomingEntry
    simp only []
    rw [show replaceYear ⟨1990, 6, 8⟩ (2024 : Nat) = some ⟨2024, 6, 8⟩ from by decide]
    simp only []
    rw [show dateLt ⟨2024, 6, 8⟩ ⟨2024, 6, 5⟩ = false from by decide]
    simp only [Bool.false_eq_true, if_false]
    rw [show (Date.weekday ⟨2024, 6, 8⟩ == 6) = false from by decide,
      show (Date.weekday ⟨2024, 6, 8⟩ == 5) = true from by decide]
    simp only [Bool.false_eq_true, if_false, if_true]
    rw [show addDays ⟨2024, 6, 8⟩ 2 = ⟨2024, 6, 10⟩ from by decide,
      show dateSub ⟨2024, 6, 10⟩ ⟨2024, 6, 5⟩ = 5 from by decide]
    rw [if_pos ⟨by norm_num, hda⟩]
    rw [show formatDate ⟨1990, 6, 8⟩ = "08.06.1990" from by decide]
  unfold AddressBook.get_upcoming_birthdays AddressBook.values collectUpcoming
  simp only [List.map, hentry]
  rfl

/-- Witness for C2: instantiating the universally quantified part at
`days_ahead = 5`. -/
theorem upcoming_birthdays_weekend_roll_window_witness :
    (5 : Int) ≤ 5 ∧
    AddressBook.get_upcoming_birthdays
      [("Alice", ⟨"Alice", [], none, none, some ⟨1990, 6, 8⟩⟩)] 5
      ⟨2024, 6, 5⟩ = .ok [("Alice", "08.06.1990")] :=
  ⟨by norm_num, upcoming_birthdays_weekend_roll_window.1 5 (by norm_num)⟩

/-- Counterexample for C3: the repository's second `get_upcoming_birthdays`
(legacy `models/AddressBook.py`, used by the top-level `handlers.py`) returns
the weekend-rolled, year-shifted congratulation date, not the original stored
birthday: for birthday `08.06.1990` seen from 2024-06-05 it returns the pair
`("Alice", "10.06.2024")`, while the original birthday renders as
`"08.06.1990"`. -/
theorem upcoming_birthdays_legacy_returns_rolled_date :
    AddressBookLegacy.get_upcoming_birthdays
      [⟨"Alice", [], some ⟨1990, 6, 8⟩⟩] ⟨2024, 6, 5⟩ =
      .ok [("Alice", "10.06.2024")] ∧
    formatDate ⟨1990, 6, 8⟩ = "08.06.1990" ∧
    ("10.06.2024" : String) ≠ "08.06.1990" := by
  refine ⟨by decide, by decide, by decide⟩

/-- C3 as amended: in `models/address_book.py` (the implementation the
application imports), every pair returned by `get_upcoming_birthdays` is the
record name together with the record's original stored birthday — birth year
included — formatted DD.MM.YYYY. -/
theorem upcoming_birthdays_pairs_original_birthday
    (book : AddressBook) (daysAhead : Int) (today : Date)
    (res : List (String × String))
    (h : AddressBook.get_upcoming_birthdays book daysAhead today = .ok res) :
    ∀ pair ∈ res, ∃ record ∈ book.values, ∃ birthDate,
      record.birthday = some birthDate ∧
      pair = (record.name, formatDate birthDate) :=
  collectUpcoming_pairs h

/-- Witness for C3: the amended theorem applied to a concrete one-record book
whose result is nonempty, instantiated at the single returned pair. -/
theorem upcoming_birthdays_pairs_original_birthday_witness :
    ∃ record ∈ AddressBook.values
        [("Alice", ⟨"Alice", [], none, none, some ⟨1990, 6, 8⟩⟩)],
      ∃ birthDate, record.birthday = some birthDate ∧
        (("Alice" : String), ("08.06.1990" : String)) =
          (record.name, formatDate birthDate) :=
  upcoming_birthdays_pairs_original_birthday
    [("Alice", ⟨"Alice", [], none, none, some ⟨1990, 6, 8⟩⟩)] 7 ⟨2024, 6, 5⟩
    [("Alice", "08.06.1990")] (by decide)
    ("Alice", "08.06.1990") (List.mem_singleton.mpr rfl)

/-- Counterexample for C4: the repository's second Phone validator (legacy
`models/Phone.py`, used by `models/Record.py`) does not strip separators: the
input `"099-4777-528"` leaves exactly 10 digits after cleaning, yet its
construction fails, while the claim says construction succeeds exactly when
10 digits remain after stripping. -/
theorem phone_legacy_rejects_separated_digits :
    cleanPhone "099-4777-528" = "0994777528" ∧
    (cleanPhone "099-4777-528").length = 10 ∧
    PhoneLegacy.init "099-4777-528" =
      .error "Phone number must be 10 digits and contain only numbers" := by
  refine ⟨by decide, by decide, by decide⟩

/-- C4 as amended: for `models/phone.py` (the Phone the application imports),
construction first removes every non-digit character, succeeds exactly when 10
digits remain, and on success stores exactly the cleaned 10-digit string. -/
theorem phone_init_normalizes (value : String) :
    (Phone.init value = .ok (cleanPhone value) ↔ (cleanPhone value).length = 10) ∧
    ∀ stored, Phone.init value = .ok stored → stored = cleanPhone value := by
  have hall : (cleanPhone value).data.all Char.isDigit = true := by
    rw [List.all_eq_true]
    intro c hc
    exact List.of_mem_filter (p := Char.isDigit) hc
  have hdigit : cleanPhone value ≠ "" → strIsDigit (cleanPhone value) = true := by
    intro hne
    unfold strIsDigit
    rw [hall, decide_eq_true hne, Bool.and_self]
  unfold Phone.init
  dsimp only []
  by_cases h0 : cleanPhone value = ""
  · rw [if_pos h0]
    refine ⟨⟨fun h => Except.noConfusion h, fun h => ?_⟩,
      fun stored h => Except.noConfusion h⟩
    rw [h0] at h
    exact absurd h (by decide)
  · rw [if_neg h0]
    by_cases hg :
        (!(strIsDigit (cleanPhone value) && (cleanPhone value).length == 10)) = true
    · rw [if_pos hg]
      refine ⟨⟨fun h => Except.noConfusion h, fun h => ?_⟩,
        fun stored h => Except.noConfusion h⟩
      rw [Bool.not_eq_eq_eq_not, Bool.not_true, Bool.and_eq_false_iff] at hg
      rcases hg with hg | hg
      · exact absurd (hdigit h0) (by rw [hg]; decide)
      · rw [h] at hg
        exact absurd hg (by decide)
    · rw [if_neg hg]
      simp only [Bool.not_eq_true, Bool.not_eq_false', Bool.and_eq_true] at hg
      exact ⟨⟨fun _ => eq_of_beq hg.2, fun _ => rfl⟩,
        fun stored h => (Except.ok.inj h).symm⟩

/-- Witness for C4: the amended theorem applied to a separator-laden input,
showing the stored value is the cleaned digit string. -/
theorem phone_init_normalizes_witness :
    Phone.init "099-4777-528" = .ok "0994777528" ∧
    "0994777528" = cleanPhone "099-4777-528" :=
  ⟨by decide, (phone_init_normalizes "099-4777-528").2 "0994777528" (by decide)⟩

/-- Totality of the Python code-point string comparison. -/
theorem charsLe_total : ∀ (as bs : List Char),
    charsLe as bs = true ∨ charsLe bs as = true := by
  intro as
  induction as with
  | nil => intro bs; exact Or.inl rfl
  | cons a as ih =>
    intro bs
    cases bs with
    | nil => exact Or.inr rfl
    | cons b bs =>
      unfold charsLe
      rcases Nat.lt_trichotomy a.toNat b.toNat with h | h | h
      · left; rw [if_pos h]
      · rw [if_neg (by omega), if_neg (by omega), if_neg (by omega), if_neg (by omega)]
        exact ih bs
      · right; rw [if_pos h]

/-- Transitivity of the Python code-point string comparison. -/
theorem charsLe_trans : ∀ {as bs cs : List Char},
    charsLe as bs = true → charsLe bs cs = true → charsLe as cs = true := by
  intro as
  induction as with
  | nil => intro bs cs _ _; rfl
  | cons a as ih =>
    intro bs cs h1 h2
    cases bs with
    | nil => exact absurd h1 (by unfold charsLe; decide)
    | cons b bs =>
      cases cs with
      | nil => exact absurd h2 (by unfold charsLe; decide)
      | cons c cs =>
        unfold charsLe at h1 h2 ⊢
        rcases Nat.lt_trichotomy a.toNat b.toNat with hab | hab | hab
        · rcases Nat.lt_trichotomy b.toNat c.toNat with hbc | hbc | hbc
          · rw [if_pos (by omega)]
          · rw [if_pos (by omega)]
          · rw [if_neg (by omega), if_pos (by omega)] at h2
            exact absurd h2 (by decide)
        · rw [if_neg (by omega), if_neg (by omega)] at h1
          rcases Nat.lt_trichotomy b.toNat c.toNat with hbc | hbc | hbc
          · rw [if_pos (by omega)]
          · rw [if_neg (by omega), if_neg (by omega)] at h2
            rw [if_neg (by omega), if_neg (by omega)]
            exact ih h1 h2
          · rw [if_neg (by omega), if_pos (by omega)] at h2
            exact absurd h2 (by decide)
        · rw [if_neg (by omega), if_pos (by omega)] at h1
          exact absurd h1 (by decide)

/-- Counterexample for C5: with `reverse=True` the `"tags"` sort places the
untagged note FIRST, not last — `sorted(..., reverse=True)` flips the
comparison, so the maximal sentinel key of a tagless note comes first in
descending order. -/
theorem tags_sort_descending_puts_untagged_first :
    NoteBook.get_all_notes [⟨"tagged", ["a"], 0, 0⟩, ⟨"untagged", [], 1, 1⟩]
        "tags" true =
      [⟨"untagged", [], 1, 1⟩, ⟨"tagged", ["a"], 0, 0⟩] ∧
    (⟨"untagged", [], 1, 1⟩ : Note).tags = [] ∧
    (⟨"tagged", ["a"], 0, 0⟩ : Note).tags ≠ [] := by
  refine ⟨by decide, by decide, by decide⟩

/-- C5 as amended: in the ascending direction (`reverse=False`) every
untagged note is placed after every tagged note, provided each first tag
lowercases strictly below the `"￿"` sentinel (true of any real-world tag).
With `reverse=True` the whole comparison is flipped, so untagged notes come
first instead. -/
theorem tags_sort_ascending_untagged_last (notebook : NoteBook)
    (hkeys : ∀ n ∈ notebook, n.tags ≠ [] → strLe "￿" (tagsSortKey n) = false)
    (i j : Fin (NoteBook.get_all_notes notebook "tags" false).length)
    (hi : ((NoteBook.get_all_notes notebook "tags" false).get i).tags = [])
    (hj : ((NoteBook.get_all_notes notebook "tags" false).get j).tags ≠ []) :
    j < i := by
  have hout : NoteBook.get_all_notes notebook "tags" false =
      List.insertionSort (fun a b => strLe (tagsSortKey a) (tagsSortKey b) = true)
        notebook := rfl
  haveI : IsTotal Note (fun a b => strLe (tagsSortKey a) (tagsSortKey b) = true) :=
    ⟨fun a b => charsLe_total _ _⟩
  haveI : IsTrans Note (fun a b => strLe (tagsSortKey a) (tagsSortKey b) = true) :=
    ⟨fun _ _ _ h1 h2 => charsLe_trans h1 h2⟩
  have hsorted : List.Sorted
      (fun a b => strLe (tagsSortKey a) (tagsSortKey b) = true)
      (NoteBook.get_all_notes notebook "tags" false) := by
    rw [hout]
    exact List.sorted_insertionSort _ _
  by_contra hcon
  push_neg at hcon
  have hij : i < j := lt_of_le_of_ne hcon (by
    intro he
    rw [he] at hi
    exact hj hi)
  have hrel := List.Sorted.rel_get_of_lt hsorted hij
  have hperm : (NoteBook.get_all_notes notebook "tags" false).Perm notebook := by
    rw [hout]
    exact List.perm_insertionSort _ _
  have hmem : (NoteBook.get_all_notes notebook "tags" false).get j ∈ notebook :=
    hperm.mem_iff.mp (List.get_mem _ j.1 j.2)
  have hkey_i : tagsSortKey ((NoteBook.get_all_notes notebook "tags" false).get i) =
      "￿" := by
    unfold tagsSortKey
    rw [hi]
  rw [hkey_i] at hrel
  rw [hkeys _ hmem hj] at hrel
  exact Bool.false_ne_true hrel

/-- Witness for C5: a two-note book sorted ascending by tags, with the
untagged note landing at index 1, after the tagged note at index 0. -/
theorem tags_sort_ascending_untagged_last_witness :
    (⟨0, by decide⟩ : Fin (NoteBook.get_all_notes
        [⟨"tagged", ["a"], 0, 0⟩, ⟨"untagged", [], 1, 1⟩] "tags" false).length) <
      ⟨1, by decide⟩ :=
  tags_sort_ascending_untagged_last
    [⟨"tagged", ["a"], 0, 0⟩, ⟨"untagged", [], 1, 1⟩] (by decide)
    ⟨1, by decide⟩ ⟨0, by decide⟩ (by decide) (by decide)

/-- C6: `search_by_tags` has AND semantics — a note is returned exactly when
it is in the book, the query is nonempty, and every query tag, lowercased, is
among the note's lowercased tags; in particular the note tagged
`["A","B","C"]` is returned for `["a","b"]`, excluded for `["a","d"]`, and the
empty query returns the empty result. -/
theorem search_by_tags_and_semantics :
    (∀ (notebook : NoteBook) (tags : List String) (note : Note),
      note ∈ NoteBook.search_by_tags notebook tags ↔
        note ∈ notebook ∧ tags ≠ [] ∧
          ∀ tag ∈ tags, strLower tag ∈ note.tags.map strLower) ∧
    NoteBook.search_by_tags [⟨"n", ["A", "B", "C"], 0, 0⟩] ["a", "b"] =
      [⟨"n", ["A", "B", "C"], 0, 0⟩] ∧
    NoteBook.search_by_tags [⟨"n", ["A", "B", "C"], 0, 0⟩] ["a", "d"] = [] ∧
    NoteBook.search_by_tags [⟨"n", ["A", "B", "C"], 0, 0⟩] [] = [] := by
  refine ⟨?_, by decide, by decide, by decide⟩
  intro notebook tags note
  unfold NoteBook.search_by_tags
  by_cases h : tags = []
  · rw [if_pos h]
    simp [h]
  · rw [if_neg h]
    rw [List.mem_filter]
    constructor
    · rintro ⟨hmem, hall⟩
      refine ⟨hmem, h, fun tag htag => ?_⟩
      rw [List.all_eq_true] at hall
      have := hall (strLower tag) (List.mem_map_of_mem _ htag)
      exact List.elem_iff.mp this
    · rintro ⟨hmem, -, hsup⟩
      refine ⟨hmem, ?_⟩
      rw [List.all_eq_true]
      intro t ht
      obtain ⟨tag, htag, rfl⟩ := List.mem_map.mp ht
      exact List.elem_iff.mpr (hsup tag htag)

/-- Witness for C6: the note tagged `["A","B","C"]` is a member of the result
for the query `["a","b"]`, obtained through the AND-semantics theorem. -/
theorem search_by_tags_and_semantics_witness :
    (⟨"n", ["A", "B", "C"], 0, 0⟩ : Note) ∈
      NoteBook.search_by_tags [⟨"n", ["A", "B", "C"], 0, 0⟩] ["a", "b"] :=
  (search_by_tags_and_semantics.1 [⟨"n", ["A", "B", "C"], 0, 0⟩] ["a", "b"]
    ⟨"n", ["A", "B", "C"], 0, 0⟩).2 (by decide)

/-- Auxiliary for C7: a key that is not among the mapped first components
looks up to `none`. -/
theorem lookup_eq_none_of_not_mem_keys :
    ∀ (l : List (String × Record)) (k : String),
      k ∉ l.map Prod.fst → l.lookup k = none := by
  intro l
  induction l with
  | nil => intro k _; rfl
  | cons kv rest ih =>
    intro k hk
    have h1 : (k == kv.1) = false := by
      rw [beq_eq_false_iff_ne]
      intro he
      exact hk (he ▸ List.mem_map_of_mem Prod.fst (List.mem_cons_self kv rest))
    rw [List.lookup, h1]
    exact ih k (fun hmem => hk (List.mem_cons_of_mem _ hmem))

/-- C7: `AddressBook.delete` fails with the not-found `KeyError` when the name
is absent (leaving the book untouched), and when the name is present it
returns the stored record and a book containing exactly the other entries:
the deleted key is gone, every other key still maps to the same record, and
the size has dropped by exactly one. -/
theorem address_book_delete_spec :
    ∀ (book : AddressBook) (name : String),
      (book.map Prod.fst).Nodup →
      (book.lookup name = none →
        AddressBook.delete book name =
          .error ("Contact \x27" ++ name ++ "\x27 not found")) ∧
      (∀ record, book.lookup name = some record →
        ∃ rest, AddressBook.delete book name = .ok (record, rest) ∧
          rest.lookup name = none ∧
          (∀ k, k ≠ name → rest.lookup k = book.lookup k) ∧
          rest.length + 1 = book.length) := by
  intro book name
  induction book with
  | nil =>
    intro _
    exact ⟨fun _ => rfl, fun record h => Option.noConfusion h⟩
  | cons kv rest ih =>
    intro hnodup
    rw [List.map_cons, List.nodup_cons] at hnodup
    obtain ⟨hknotin, hnd⟩ := hnodup
    by_cases hk : kv.1 = name
    · subst hk
      constructor
      · intro h
        rw [List.lookup, beq_self_eq_true] at h
        exact Option.noConfusion h
      · intro record h
        rw [List.lookup, beq_self_eq_true] at h
        have h2 : some kv.2 = some record := h
        have hrec : kv.2 = record := Option.some.inj h2
        refine ⟨rest, ?_, ?_, ?_, rfl⟩
        · unfold AddressBook.delete
          rw [List.lookup, beq_self_eq_true, List.eraseP_cons, beq_self_eq_true,
            hrec]
          rfl
        · exact lookup_eq_none_of_not_mem_keys rest kv.1 hknotin
        · intro k hkne
          have hkk : (k == kv.1) = false :=
            beq_eq_false_iff_ne.mpr hkne
          rw [List.lookup, hkk]
    · have hbeq : (name == kv.1) = false :=
        beq_eq_false_iff_ne.mpr (fun he => hk he.symm)
      obtain ⟨ihnone, ihsome⟩ := ih hnd
      constructor
      · intro h
        rw [List.lookup, hbeq] at h
        have h' : rest.lookup name = none := h
        unfold AddressBook.delete
        rw [List.lookup, hbeq]
        dsimp only []
        rw [h']
      · intro record h
        rw [List.lookup, hbeq] at h
        have h' : rest.lookup name = some record := h
        obtain ⟨drest, hdel, hnone, hsame, hlen⟩ := ihsome record h'
        unfold AddressBook.delete at hdel
        rw [h'] at hdel
        have hd2 : Except.ok ((record : Record),
            rest.eraseP (fun kv2 => kv2.1 == name)) =
            Except.ok (record, drest) := hdel
        have hdrest : rest.eraseP (fun kv2 => kv2.1 == name) = drest :=
          congrArg Prod.snd (Except.ok.inj hd2)
        have hlk : (kv.1 == name) = false := beq_eq_false_iff_ne.mpr hk
        refine ⟨kv :: drest, ?_, ?_, ?_, ?_⟩
        · unfold AddressBook.delete
          rw [List.lookup, hbeq]
          dsimp only []
          rw [h']
          dsimp only []
          rw [List.eraseP_cons, hlk]
          dsimp only [cond]
          rw [hdrest]
        · rw [List.lookup, hbeq]
          exact hnone
        · intro k hknek
          cases hkk : (k == kv.1) with
          | true => rw [List.lookup, List.lookup, hkk]
          | false =>
            rw [List.lookup, List.lookup, hkk]
            exact hsame k hknek
        · rw [List.length_cons, List.length_cons, ← hlen]

/-- Witness for C7: deleting the only entry of a one-record book returns that
record and leaves an empty book. -/
theorem address_book_delete_spec_witness :
    ∃ rest,
      AddressBook.delete [("Ann", ⟨"Ann", [], none, none, none⟩)] "Ann" =
        .ok (⟨"Ann", [], none, none, none⟩, rest) ∧
      rest.lookup "Ann" = none ∧
      (∀ k, k ≠ "Ann" →
        rest.lookup k = [("Ann", (⟨"Ann", [], none, none, none⟩ : Record))].lookup k) ∧
      rest.length + 1 = [("Ann", (⟨"Ann", [], none, none, none⟩ : Record))].length :=
  (address_book_delete_spec [("Ann", ⟨"Ann", [], none, none, none⟩)] "Ann"
    (by decide)).2 ⟨"Ann", [], none, none, none⟩ (by decide)

/-- Counterexample for C8: `Record.add_phone` of `models/Record.py` does not
fail on a duplicate — adding a phone that the record already holds succeeds
and appends a second copy. -/
theorem record_legacy_add_phone_allows_duplicate :
    ("1234567890" : String) ∈
      (⟨"John", ["1234567890"], none⟩ : RecordLegacy).phones ∧
    RecordLegacy.add_phone ⟨"John", ["1234567890"], none⟩ "1234567890" =
      .ok ⟨"John", ["1234567890", "1234567890"], none⟩ := by
  refine ⟨by decide, by decide⟩

/-- C8 as amended: `Record.add_phone` of `models/Record.py` checks only the
`Phone` format rule — it succeeds and appends (whether or not the value is
already present) exactly when the raw value is a 10-character all-digit
string, and otherwise fails with the `Phone` validation error, leaving the
record unchanged; the duplicate guard the claim describes lives in the
`add_contact` handler (via `find_phone`), not in `add_phone`. -/
theorem record_legacy_add_phone_appends (record : RecordLegacy) (phone : String) :
    (strIsDigit phone = true ∧ phone.length = 10 →
      RecordLegacy.add_phone record phone =
        .ok { record with phones := record.phones ++ [phone] }) ∧
    (¬(strIsDigit phone = true ∧ phone.length = 10) →
      RecordLegacy.add_phone record phone =
        .error "Phone number must be 10 digits and contain only numbers") := by
  unfold RecordLegacy.add_phone PhoneLegacy.init
  constructor
  · rintro ⟨hd, hl⟩
    rw [if_neg (by rw [hd, hl]; decide)]
  · intro hne
    have hguard : (!(strIsDigit phone && phone.length == 10)) = true := by
      rcases not_and_or.mp hne with hcon | hcon
      · have hb : strIsDigit phone = false := by
          cases hb2 : strIsDigit phone
          · rfl
          · exact absurd hb2 hcon
        rw [hb]
        simp
      · have hb : (phone.length == 10) = false := beq_eq_false_iff_ne.mpr hcon
        rw [hb]
        simp
    rw [if_pos hguard]

/-- Witness for C8: a valid 10-digit phone is appended to an empty phone
list. -/
theorem record_legacy_add_phone_appends_witness :
    RecordLegacy.add_phone ⟨"John", [], none⟩ "1234567890" =
      .ok { (⟨"John", [], none⟩ : RecordLegacy) with
              phones := ([] : List String) ++ ["1234567890"] } :=
  (record_legacy_add_phone_appends ⟨"John", [], none⟩ "1234567890").1
    (by refine ⟨by decide, by decide⟩)

/-- Counterexample for C9: `search_contacts_by_address` does not return an
empty collection of records — its body is `pass`, so it returns Python `None`,
which is a different value than an empty result set (the caller's
`set.union` on it would raise `TypeError`, while an empty set would not). -/
theorem search_by_address_returns_none_not_empty :
    AddressBook.search_contacts_by_address
        [("Ann", ⟨"Ann", [], none, some "12 Main Street", none⟩)] "Main" =
      none ∧
    (none : Option (List Record)) ≠ some [] := by
  refine ⟨rfl, by decide⟩

/-- C9 as amended: for every book and query, `search_contacts_by_address`
returns `None` — it never matches any record, even one whose address contains
the query, and as a pure function of its inputs it never mutates the book. -/
theorem search_by_address_is_stub (book : AddressBook) (query : String) :
    AddressBook.search_contacts_by_address book query = none ∧
    ∀ record,
      record ∉ (AddressBook.search_contacts_by_address book query).getD [] :=
  ⟨rfl, fun record h => absurd h (List.not_mem_nil record)⟩

/-- Witness for C9: no record is produced for a concrete book whose single
record has a matching address. -/
theorem search_by_address_is_stub_witness :
    (⟨"Ann", [], none, some "12 Main Street", none⟩ : Record) ∉
      (AddressBook.search_contacts_by_address
        [("Ann", ⟨"Ann", [], none, some "12 Main Street", none⟩)] "Main").getD [] :=
  (search_by_address_is_stub
    [("Ann", ⟨"Ann", [], none, some "12 Main Street", none⟩)] "Main").2
    ⟨"Ann", [], none, some "12 Main Street", none⟩

/-- Auxiliary for C10: one tag-editing call keeps `created_at` and either
keeps `updated_at` or sets it to the call's clock reading. -/
theorem applyTagOp_created_updated (note : Note) (op : TagOp) :
    (applyTagOp note op).created_at = note.created_at ∧
    ((applyTagOp note op).updated_at = note.updated_at ∨
      (applyTagOp note op).updated_at = op.time) := by
  cases op with
  | addTag tag now =>
    unfold applyTagOp Note.add_tag TagOp.time
    dsimp only []
    by_cases h : tag ∈ note.tags
    · rw [if_pos h]
      exact ⟨rfl, Or.inl rfl⟩
    · rw [if_neg h]
      exact ⟨rfl, Or.inr rfl⟩
  | removeTag tag now =>
    unfold applyTagOp Note.remove_tag TagOp.time
    dsimp only []
    by_cases h : tag ∈ note.tags
    · rw [if_pos h]
      exact ⟨rfl, Or.inr rfl⟩
    · rw [if_neg h]
      exact ⟨rfl, Or.inl rfl⟩
  | editTags newTags now =>
    exact ⟨rfl, Or.inr rfl⟩

/-- Auxiliary for C10: folding any sequence of tag-editing calls whose clock
readings are at or after `created_at` keeps `created_at` fixed and keeps
`created_at <= updated_at`. -/
theorem applyTagOps_invariant :
    ∀ (ops : List TagOp) (note : Note),
      (∀ op ∈ ops, note.created_at ≤ op.time) →
      note.created_at ≤ note.updated_at →
      (applyTagOps note ops).created_at = note.created_at ∧
      (applyTagOps note ops).created_at ≤ (applyTagOps note ops).updated_at := by
  intro ops
  induction ops with
  | nil => intro note _ h; exact ⟨rfl, h⟩
  | cons op rest ih =>
    intro note hts h
    obtain ⟨hc, hu⟩ := applyTagOp_created_updated note op
    have hstep : (applyTagOp note op).created_at ≤ (applyTagOp note op).updated_at := by
      rcases hu with hu | hu
      · rw [hc, hu]; exact h
      · rw [hc, hu]; exact hts op (List.mem_cons_self op rest)
    have htail : ∀ o ∈ rest, (applyTagOp note op).created_at ≤ o.time := by
      intro o ho
      rw [hc]
      exact hts o (List.mem_cons_of_mem op ho)
    obtain ⟨h1, h2⟩ := ih (applyTagOp note op) htail hstep
    have hfold : applyTagOps note (op :: rest) = applyTagOps (applyTagOp note op) rest := rfl
    rw [hfold, h1, hc] at *
    exact ⟨h1.trans hc, h2⟩

/-- C10: for every note built by `Note.__init__` and every sequence of
`add_tag`, `remove_tag` and `edit_tags` calls whose `datetime.now()` readings
are at or after the construction reading (the clock does not run backwards),
`created_at` keeps its construction-time value and
`created_at <= updated_at` holds; since the sequence is arbitrary, this covers
every observable point after construction. -/
theorem note_timestamps_invariant (text : String) (tags : Option (List String))
    (t0 : Nat) (note : Note) (hinit : Note.init text tags t0 = .ok note)
    (ops : List TagOp) (htimes : ∀ op ∈ ops, t0 ≤ op.time) :
    (applyTagOps note ops).created_at = t0 ∧
    (applyTagOps note ops).created_at ≤ (applyTagOps note ops).updated_at := by
  unfold Note.init at hinit
  have hfields : note.created_at = t0 ∧ note.updated_at = t0 := by
    by_cases h : strStrip text = ""
    · rw [if_pos h] at hinit
      exact Except.noConfusion hinit
    · rw [if_neg h] at hinit
      have h2 := Except.ok.inj hinit
      rw [← h2]
      exact ⟨rfl, rfl⟩
  obtain ⟨hc0, hu0⟩ := hfields
  obtain ⟨h1, h2⟩ := applyTagOps_invariant ops note (by rw [hc0]; exact htimes)
    (by rw [hc0, hu0])
  exact ⟨by rw [h1, hc0], h2⟩

/-- Witness for C10: a concrete note built at clock 0 and edited by an add,
a full replace, and a remove at later clock readings. -/
theorem note_timestamps_invariant_witness :
    (applyTagOps ⟨"hello", [], 0, 0⟩
        [.addTag "a" 1, .editTags (some ["b", "c"]) 3, .removeTag "b" 5]).created_at = 0 ∧
    (applyTagOps ⟨"hello", [], 0, 0⟩
        [.addTag "a" 1, .editTags (some ["b", "c"]) 3, .removeTag "b" 5]).created_at ≤
      (applyTagOps ⟨"hello", [], 0, 0⟩
        [.addTag "a" 1, .editTags (some ["b", "c"]) 3, .removeTag "b" 5]).updated_at :=
  note_timestamps_invariant "hello" none 0 ⟨"hello", [], 0, 0⟩ (by decide)
    [.addTag "a" 1, .editTags (some ["b", "c"]) 3, .removeTag "b" 5] (by decide)
